import Mathlib

/-!
Verification development for a Grover's-algorithm circuit builder.

The repository consists of two Python files:
  * `src/logic.py` — class `GroverAlgorithm` with methods `__init__`,
    `create_oracle`, `create_diffuser`, `build_circuit`;
  * `main.py` — CLI glue, containing the pure function
    `calculate_optimal_iterations`.

We shallowly embed the circuit-construction core.  Qiskit circuits are
modelled as ordered lists of operations over `n` quantum lines and `n`
classical lines.  Composite instructions (`to_instruction`) are modelled
as a named record holding the gate list.  Gate semantics (needed for the
self-inverse / phase-flip claims) are given as the standard action of
X / H / multi-controlled-X on real amplitude vectors indexed by basis
states `Fin n → Bool` (all gates involved have real matrices, so real
amplitudes suffice).  Python floats are modelled by exact reals;
Python's banker's rounding (`round`) is modelled by `pythonRound`;
Python exceptions are modelled with `Except`.
-/

namespace Grover

/-! ## Data model -/

/-- An elementary gate as placed by `qiskit.QuantumCircuit.x/h/mcx`. -/
inductive BasicGate where
  | x (i : ℕ)
  | h (i : ℕ)
  | mcx (controls : List ℕ) (targetQubit : ℕ)
  deriving DecidableEq

/-- A named composite instruction, as produced by
`QuantumCircuit.to_instruction()` followed by assigning `.name`. -/
structure Instruction where
  name : String
  num_qubits : ℕ
  ops : List BasicGate
  deriving DecidableEq

/-- One operation of a full circuit: an elementary gate, the placement of a
composite instruction onto a list of lines (`QuantumCircuit.append`), or a
measurement of a quantum line into a classical line. -/
inductive CircuitOp where
  | gate (g : BasicGate)
  | append (ins : Instruction) (lines : List ℕ)
  | measure (q : ℕ) (c : ℕ)
  deriving DecidableEq

/-- A `qiskit.QuantumCircuit(n, n)`: quantum lines, classical lines and the
ordered operation list. -/
structure QuantumCircuit where
  num_qubits : ℕ
  num_clbits : ℕ
  ops : List CircuitOp
  deriving DecidableEq

/-- The attributes stored by `GroverAlgorithm.__init__` (`self.n`,
`self.target`). -/
structure GroverAlgorithm where
  n : ℕ
  target : String
  deriving DecidableEq

/-- Python exceptions that the modelled code can raise. -/
inductive PyError where
  | valueError
  | zeroDivisionError
  deriving DecidableEq

/-! ## Source embedding: `src/logic.py` -/

/-- `GroverAlgorithm.__init__(n_qubits, target_state)`: stores the fields and
raises `ValueError` when the target length does not match `n_qubits`.  This is
the only validation the constructor performs. -/
def grover_init (n_qubits : ℕ) (target_state : String) : Except PyError GroverAlgorithm :=
  if target_state.length ≠ n_qubits then Except.error PyError.valueError
  else Except.ok { n := n_qubits, target := target_state }

/-- The X-gate layer of `create_oracle`:
`for i, bit in enumerate(reversed(self.target)): if bit == '0': qc.x(i)`. -/
def flipGates (t : String) : List BasicGate :=
  t.data.reverse.enum.filterMap fun p =>
    if p.2 = '0' then some (BasicGate.x p.1) else none

/-- `GroverAlgorithm.create_oracle(self)`: X gates on the '0' positions of the
reversed target, an H / MCX / H sandwich on the last line, the X gates again,
packaged as an instruction named "Oracle (Z_f)". -/
def GroverAlgorithm.create_oracle (g : GroverAlgorithm) : Instruction :=
  { name := "Oracle (Z_f)"
    num_qubits := g.n
    ops := flipGates g.target
      ++ [BasicGate.h (g.n - 1),
          BasicGate.mcx (List.range (g.n - 1)) (g.n - 1),
          BasicGate.h (g.n - 1)]
      ++ flipGates g.target }

/-- `qc.h(range(n))`: a Hadamard on every line, in line order. -/
def hLayer (n : ℕ) : List BasicGate := (List.range n).map BasicGate.h

/-- `qc.x(range(n))`: an X on every line, in line order. -/
def xLayer (n : ℕ) : List BasicGate := (List.range n).map BasicGate.x

/-- `GroverAlgorithm.create_diffuser(self)`: H on every line, X on every line,
the H / MCX / H sandwich on the last line, X on every line, H on every line,
packaged as an instruction named "Diffuser (D)". -/
def GroverAlgorithm.create_diffuser (g : GroverAlgorithm) : Instruction :=
  { name := "Diffuser (D)"
    num_qubits := g.n
    ops := hLayer g.n ++ xLayer g.n
      ++ [BasicGate.h (g.n - 1),
          BasicGate.mcx (List.range (g.n - 1)) (g.n - 1),
          BasicGate.h (g.n - 1)]
      ++ xLayer g.n ++ hLayer g.n }

/-- `GroverAlgorithm.build_circuit(self, iterations)`: initialization
Hadamards, `iterations` repetitions of oracle-then-diffuser (Python's
`for _ in range(iterations)` runs `max iterations 0` times, hence `Int.toNat`),
then measurement of every quantum line `i` into classical line `i`. -/
def GroverAlgorithm.build_circuit (g : GroverAlgorithm) (iterations : ℤ) : QuantumCircuit :=
  { num_qubits := g.n
    num_clbits := g.n
    ops := ((List.range g.n).map fun i => CircuitOp.gate (BasicGate.h i))
      ++ (List.replicate iterations.toNat
            [CircuitOp.append g.create_oracle (List.range g.n),
             CircuitOp.append g.create_diffuser (List.range g.n)]).flatten
      ++ ((List.range g.n).map fun i => CircuitOp.measure i i) }

/-! ## Source embedding: `calculate_optimal_iterations` in `main.py` -/

/-- Python's built-in `round`: round half to even (banker's rounding); all
other values round to the nearest integer. -/
noncomputable def pythonRound (x : ℝ) : ℤ :=
  if x - ⌊x⌋ = 1/2 then (if Even ⌊x⌋ then ⌊x⌋ else ⌊x⌋ + 1) else round x

open Classical in
/-- `calculate_optimal_iterations(n_qubits, n_solutions)` from `main.py`:

    N = 2**n_qubits
    theta = math.asin(math.sqrt(n_solutions / N))
    return round((math.pi / (4 * theta)) - 0.5)

No parameter validation is performed.  `math.sqrt` raises `ValueError` on a
negative argument, `math.asin` raises `ValueError` on an argument above 1, and
the final division raises `ZeroDivisionError` when `theta == 0`. -/
noncomputable def calculate_optimal_iterations (n_qubits n_solutions : ℤ) :
    Except PyError ℤ :=
  let N : ℝ := (2 : ℝ) ^ n_qubits
  let q : ℝ := (n_solutions : ℝ) / N
  if q < 0 then Except.error PyError.valueError
  else if 1 < Real.sqrt q then Except.error PyError.valueError
  else if Real.arcsin (Real.sqrt q) = 0 then Except.error PyError.zeroDivisionError
  else Except.ok (pythonRound (Real.pi / (4 * Real.arcsin (Real.sqrt q)) - 1/2))

/-! ## Gate semantics -/

/-- A (not necessarily normalized) real amplitude vector over the basis
states of an `n`-line register. -/
def State (n : ℕ) := (Fin n → Bool) → ℝ

/-- Bit `i` of a basis state (`false` for out-of-range lines). -/
def getBit {n : ℕ} (b : Fin n → Bool) (i : ℕ) : Bool :=
  if h : i < n then b ⟨i, h⟩ else false

/-- Overwrite bit `i` of a basis state (identity for out-of-range lines). -/
def setBit {n : ℕ} (i : ℕ) (v : Bool) (b : Fin n → Bool) : Fin n → Bool :=
  fun j => if (j : ℕ) = i then v else b j

/-- Flip bit `i` of a basis state. -/
def flipBit {n : ℕ} (i : ℕ) (b : Fin n → Bool) : Fin n → Bool :=
  setBit i (!(getBit b i)) b

/-- Standard action of one elementary gate on an amplitude vector: X permutes
basis states by a bit flip, H mixes the two branches over line `i` with
weights `±1/√2`, and multi-controlled X flips the target bit exactly on basis
states whose control bits are all set. -/
noncomputable def Apply {n : ℕ} : BasicGate → State n → State n
  | BasicGate.x i, ψ => fun b => ψ (flipBit i b)
  | BasicGate.h i, ψ => fun b =>
      (ψ (setBit i false b) + (if getBit b i then (-1 : ℝ) else 1) * ψ (setBit i true b)) /
        Real.sqrt 2
  | BasicGate.mcx cs t, ψ => fun b =>
      ψ (if cs.all (fun c => getBit b c) then flipBit t b else b)

/-- Action of a gate list, first gate applied first. -/
noncomputable def ApplyList {n : ℕ} (l : List BasicGate) (ψ : State n) : State n :=
  l.foldl (fun s g => Apply g s) ψ

/-! ## Bit-level lemmas -/

lemma getBit_setBit_self {n : ℕ} (b : Fin n → Bool) {i : ℕ} (hi : i < n) (v : Bool) :
    getBit (setBit i v b) i = v := by
  simp [getBit, setBit, hi]

lemma getBit_setBit_ne {n : ℕ} (b : Fin n → Bool) {i j : ℕ} (hij : j ≠ i) (v : Bool) :
    getBit (setBit i v b) j = getBit b j := by
  unfold getBit setBit
  split
  · simp [hij]
  · rfl

lemma setBit_setBit_self {n : ℕ} (b : Fin n → Bool) (i : ℕ) (v w : Bool) :
    setBit i v (setBit i w b) = setBit i v b := by
  funext j
  unfold setBit
  by_cases hj : (j : ℕ) = i <;> simp [hj]

lemma setBit_setBit_comm {n : ℕ} (b : Fin n → Bool) {i j : ℕ} (hij : i ≠ j) (v w : Bool) :
    setBit i v (setBit j w b) = setBit j w (setBit i v b) := by
  funext k
  unfold setBit
  by_cases hk : (k : ℕ) = i <;> by_cases hk' : (k : ℕ) = j <;>
    simp_all [hij]

lemma setBit_getBit {n : ℕ} (b : Fin n → Bool) (i : ℕ) :
    setBit i (getBit b i) b = b := by
  funext j
  unfold setBit getBit
  by_cases hj : (j : ℕ) = i
  · subst hj
    simp [j.isLt]
  · simp [hj]

lemma setBit_oob {n : ℕ} (b : Fin n → Bool) {i : ℕ} (hi : n ≤ i) (v : Bool) :
    setBit i v b = b := by
  funext j
  have : (j : ℕ) ≠ i := by omega
  simp [setBit, this]

lemma flipBit_flipBit {n : ℕ} (b : Fin n → Bool) (i : ℕ) :
    flipBit i (flipBit i b) = b := by
  by_cases hi : i < n
  · unfold flipBit
    rw [getBit_setBit_self b hi, setBit_setBit_self, Bool.not_not, setBit_getBit]
  · unfold flipBit
    rw [setBit_oob _ (by omega), setBit_oob _ (by omega)]

lemma getBit_flipBit_ne {n : ℕ} (b : Fin n → Bool) {i j : ℕ} (hij : j ≠ i) :
    getBit (flipBit i b) j = getBit b j :=
  getBit_setBit_ne b hij _

lemma flipBit_comm {n : ℕ} (b : Fin n → Bool) (i j : ℕ) :
    flipBit i (flipBit j b) = flipBit j (flipBit i b) := by
  by_cases hij : i = j
  · subst hij; rfl
  · unfold flipBit
    rw [getBit_setBit_ne b (by omega), getBit_setBit_ne b (by omega),
      setBit_setBit_comm _ hij]

/-! ## Gate algebra: involutions and commutation -/

lemma apply_x_apply_x {n : ℕ} (i : ℕ) (ψ : State n) :
    Apply (BasicGate.x i) (Apply (BasicGate.x i) ψ) = ψ := by
  funext b
  show ψ (flipBit i (flipBit i b)) = ψ b
  rw [flipBit_flipBit]

lemma apply_x_comm {n : ℕ} (i j : ℕ) (ψ : State n) :
    Apply (BasicGate.x i) (Apply (BasicGate.x j) ψ) =
      Apply (BasicGate.x j) (Apply (BasicGate.x i) ψ) := by
  funext b
  show ψ (flipBit j (flipBit i b)) = ψ (flipBit i (flipBit j b))
  rw [flipBit_comm]

lemma sqrt_two_mul_self : Real.sqrt 2 * Real.sqrt 2 = 2 :=
  Real.mul_self_sqrt (by norm_num)

lemma sqrt_two_ne_zero : Real.sqrt 2 ≠ 0 := by
  have := Real.sqrt_pos.mpr (show (0:ℝ) < 2 by norm_num)
  exact ne_of_gt this

lemma apply_h_apply_h {n : ℕ} {i : ℕ} (hi : i < n) (ψ : State n) :
    Apply (BasicGate.h i) (Apply (BasicGate.h i) ψ) = ψ := by
  funext b
  show ((Apply (BasicGate.h i) ψ) (setBit i false b) +
      (if getBit b i then (-1:ℝ) else 1) * (Apply (BasicGate.h i) ψ) (setBit i true b)) /
        Real.sqrt 2 = ψ b
  show ((ψ (setBit i false (setBit i false b)) +
        (if getBit (setBit i false b) i then (-1:ℝ) else 1) *
          ψ (setBit i true (setBit i false b))) / Real.sqrt 2 +
      (if getBit b i then (-1:ℝ) else 1) *
        ((ψ (setBit i false (setBit i true b)) +
          (if getBit (setBit i true b) i then (-1:ℝ) else 1) *
            ψ (setBit i true (setBit i true b))) / Real.sqrt 2)) / Real.sqrt 2 = ψ b
  rw [setBit_setBit_self, setBit_setBit_self, setBit_setBit_self, setBit_setBit_self,
    getBit_setBit_self b hi, getBit_setBit_self b hi]
  have h2 : Real.sqrt 2 ^ 2 = 2 := Real.sq_sqrt (by norm_num)
  have hne := sqrt_two_ne_zero
  cases hgb : getBit b i
  · have hb : setBit i false b = b := by rw [← hgb, setBit_getBit]
    rw [hb]
    simp only [Bool.false_eq_true, if_false, if_true]
    field_simp
    ring_nf
  · have hb : setBit i true b = b := by rw [← hgb, setBit_getBit]
    rw [hb]
    simp only [Bool.false_eq_true, if_false, if_true]
    field_simp
    ring_nf

lemma apply_h_comm {n : ℕ} {i j : ℕ} (hij : i ≠ j) (ψ : State n) :
    Apply (BasicGate.h i) (Apply (BasicGate.h j) ψ) =
      Apply (BasicGate.h j) (Apply (BasicGate.h i) ψ) := by
  funext b
  simp only [Apply]
  rw [getBit_setBit_ne b (show j ≠ i by omega), getBit_setBit_ne b (show j ≠ i by omega),
    getBit_setBit_ne b (show i ≠ j by omega), getBit_setBit_ne b (show i ≠ j by omega),
    setBit_setBit_comm b hij, setBit_setBit_comm b hij,
    setBit_setBit_comm b hij, setBit_setBit_comm b hij]
  cases getBit b i <;> cases getBit b j <;> simp <;> ring

lemma apply_mcx_apply_mcx {n : ℕ} {cs : List ℕ} {t : ℕ} (ht : t ∉ cs) (ψ : State n) :
    Apply (BasicGate.mcx cs t) (Apply (BasicGate.mcx cs t) ψ) = ψ := by
  funext b
  simp only [Apply]
  by_cases hc : cs.all (fun c => getBit b c) = true
  · rw [if_pos hc]
    have hc' : cs.all (fun c => getBit (flipBit t b) c) = true := by
      simp only [List.all_eq_true] at hc ⊢
      intro c hcmem
      rw [getBit_flipBit_ne b (by rintro rfl; exact ht hcmem)]
      exact hc c hcmem
    rw [if_pos hc', flipBit_flipBit]
  · rw [if_neg hc, if_neg hc]

/-! ## Gate-list algebra -/

lemma applyList_nil {n : ℕ} (ψ : State n) : ApplyList [] ψ = ψ := rfl

lemma applyList_cons {n : ℕ} (g : BasicGate) (l : List BasicGate) (ψ : State n) :
    ApplyList (g :: l) ψ = ApplyList l (Apply g ψ) := rfl

lemma applyList_append {n : ℕ} (l₁ l₂ : List BasicGate) (ψ : State n) :
    ApplyList (l₁ ++ l₂) ψ = ApplyList l₂ (ApplyList l₁ ψ) :=
  List.foldl_append ..

/-- Pointwise commutation of the actions of two gates. -/
def Commutes {n : ℕ} (g g' : BasicGate) : Prop :=
  ∀ ψ : State n, Apply g (Apply g' ψ) = Apply g' (Apply g ψ)

lemma apply_commutes_applyList {n : ℕ} (g : BasicGate) (l : List BasicGate)
    (hc : ∀ g' ∈ l, Commutes (n := n) g g') (ψ : State n) :
    Apply g (ApplyList l ψ) = ApplyList l (Apply g ψ) := by
  induction l generalizing ψ with
  | nil => rfl
  | cons g' t ih =>
    rw [applyList_cons, applyList_cons, ih (fun x hx => hc x (List.mem_cons_of_mem _ hx)),
      hc g' (List.mem_cons_self _ _)]

/-- Applying a list of pairwise-commuting gates in reverse order has the same
action as applying it in order. -/
lemma applyList_reverse_of_pairwise {n : ℕ} (l : List BasicGate)
    (hp : l.Pairwise (Commutes (n := n))) (ψ : State n) :
    ApplyList l.reverse ψ = ApplyList l ψ := by
  induction l generalizing ψ with
  | nil => rfl
  | cons g t ih =>
    rcases List.pairwise_cons.mp hp with ⟨hg, ht⟩
    rw [List.reverse_cons, applyList_append, applyList_cons, applyList_nil,
      ih ht, applyList_cons, apply_commutes_applyList g t hg]

/-- A list of gates each of which is an involution, applied forwards and then
backwards, is the identity. -/
lemma applyList_reverse_applyList {n : ℕ} (l : List BasicGate)
    (hinv : ∀ g ∈ l, ∀ ψ : State n, Apply g (Apply g ψ) = ψ) (ψ : State n) :
    ApplyList l.reverse (ApplyList l ψ) = ψ := by
  induction l generalizing ψ with
  | nil => rfl
  | cons g t ih =>
    rw [applyList_cons, List.reverse_cons, applyList_append,
      ih (fun x hx ψ' => hinv x (List.mem_cons_of_mem _ hx) ψ'),
      applyList_cons, applyList_nil, hinv g (List.mem_cons_self _ _)]

lemma flipGates_all_x (t : String) : ∀ g ∈ flipGates t, ∃ i, g = BasicGate.x i := by
  intro g hg
  rcases List.mem_filterMap.mp hg with ⟨p, _, hp⟩
  by_cases h0 : p.2 = '0'
  · rw [if_pos h0] at hp
    exact ⟨p.1, (Option.some_injective _ hp).symm⟩
  · rw [if_neg h0] at hp
    exact absurd hp (by simp)

lemma xLayer_all_x (m : ℕ) : ∀ g ∈ xLayer m, ∃ i, g = BasicGate.x i := by
  intro g hg
  rcases List.mem_map.mp hg with ⟨i, _, hi⟩
  exact ⟨i, hi.symm⟩

lemma pairwise_commutes_of_all_x {n : ℕ} (l : List BasicGate)
    (hx : ∀ g ∈ l, ∃ i, g = BasicGate.x i) : l.Pairwise (Commutes (n := n)) := by
  induction l with
  | nil => exact List.Pairwise.nil
  | cons g t ih =>
    refine List.Pairwise.cons ?_ (ih fun x hx' => hx x (List.mem_cons_of_mem _ hx'))
    intro g' hg' ψ
    rcases hx g (List.mem_cons_self _ _) with ⟨i, rfl⟩
    rcases hx g' (List.mem_cons_of_mem _ hg') with ⟨j, rfl⟩
    exact apply_x_comm i j ψ

lemma hLayer_pairwise_commutes {n m : ℕ} : (hLayer m).Pairwise (Commutes (n := n)) := by
  have h1 : (List.range m).Pairwise (· ≠ ·) := List.nodup_range m
  exact h1.map BasicGate.h fun a b hab ψ => apply_h_comm hab ψ

/-- Every gate occurring in the oracle of an `n ≥ 1` instance acts as an
involution on `n`-line states. -/
lemma oracle_gates_involutive {n : ℕ} (hn : 1 ≤ n) (g : GroverAlgorithm) (hgn : g.n = n) :
    ∀ gt ∈ g.create_oracle.ops, ∀ ψ : State n, Apply gt (Apply gt ψ) = ψ := by
  intro gt hgt ψ
  unfold GroverAlgorithm.create_oracle at hgt
  simp only [List.mem_append, List.mem_cons, List.not_mem_nil, or_false] at hgt
  rcases hgt with (hgt | hgt | hgt | hgt) | hgt
  · rcases flipGates_all_x _ _ hgt with ⟨i, rfl⟩
    exact apply_x_apply_x i ψ
  · subst hgt; rw [hgn]; exact apply_h_apply_h (by omega) ψ
  · subst hgt
    exact apply_mcx_apply_mcx (by simp [List.mem_range]) ψ
  · subst hgt; rw [hgn]; exact apply_h_apply_h (by omega) ψ
  · rcases flipGates_all_x _ _ hgt with ⟨i, rfl⟩
    exact apply_x_apply_x i ψ

/-- Every gate occurring in the diffuser of an `n ≥ 1` instance acts as an
involution on `n`-line states. -/
lemma diffuser_gates_involutive {n : ℕ} (hn : 1 ≤ n) (g : GroverAlgorithm) (hgn : g.n = n) :
    ∀ gt ∈ g.create_diffuser.ops, ∀ ψ : State n, Apply gt (Apply gt ψ) = ψ := by
  intro gt hgt ψ
  unfold GroverAlgorithm.create_diffuser at hgt
  simp only [List.mem_append, List.mem_cons, List.not_mem_nil, or_false] at hgt
  rcases hgt with (((hgt | hgt) | hgt | hgt | hgt) | hgt) | hgt
  · rcases List.mem_map.mp hgt with ⟨i, hi, rfl⟩
    exact apply_h_apply_h (by have := List.mem_range.mp hi; omega) ψ
  · rcases xLayer_all_x _ _ hgt with ⟨i, rfl⟩
    exact apply_x_apply_x i ψ
  · subst hgt; rw [hgn]; exact apply_h_apply_h (by omega) ψ
  · subst hgt
    exact apply_mcx_apply_mcx (by simp [List.mem_range]) ψ
  · subst hgt; rw [hgn]; exact apply_h_apply_h (by omega) ψ
  · rcases xLayer_all_x _ _ hgt with ⟨i, rfl⟩
    exact apply_x_apply_x i ψ
  · rcases List.mem_map.mp hgt with ⟨i, hi, rfl⟩
    exact apply_h_apply_h (by have := List.mem_range.mp hi; omega) ψ

lemma oracle_reverse_action {n : ℕ} (g : GroverAlgorithm) (ψ : State n) :
    ApplyList g.create_oracle.ops.reverse ψ = ApplyList g.create_oracle.ops ψ := by
  have hF : ∀ φ : State n, ApplyList (flipGates g.target).reverse φ =
      ApplyList (flipGates g.target) φ :=
    applyList_reverse_of_pairwise _ (pairwise_commutes_of_all_x _ (flipGates_all_x _))
  unfold GroverAlgorithm.create_oracle
  simp only [List.reverse_append, List.reverse_cons, List.reverse_nil, List.nil_append,
    List.cons_append, List.append_assoc, applyList_append, applyList_cons, applyList_nil, hF]

lemma diffuser_reverse_action {n : ℕ} (g : GroverAlgorithm) (ψ : State n) :
    ApplyList g.create_diffuser.ops.reverse ψ = ApplyList g.create_diffuser.ops ψ := by
  have hH : ∀ φ : State n, ApplyList (hLayer g.n).reverse φ = ApplyList (hLayer g.n) φ :=
    applyList_reverse_of_pairwise _ hLayer_pairwise_commutes
  have hX : ∀ φ : State n, ApplyList (xLayer g.n).reverse φ = ApplyList (xLayer g.n) φ :=
    applyList_reverse_of_pairwise _ (pairwise_commutes_of_all_x _ (xLayer_all_x _))
  unfold GroverAlgorithm.create_diffuser
  simp only [List.reverse_append, List.reverse_cons, List.reverse_nil, List.nil_append,
    List.cons_append, List.append_assoc, applyList_append, applyList_cons, applyList_nil, hH, hX]

lemma oracle_selfinv_aux {n : ℕ} (hn : 1 ≤ n) (g : GroverAlgorithm) (hgn : g.n = n)
    (ψ : State n) :
    ApplyList g.create_oracle.ops (ApplyList g.create_oracle.ops ψ) = ψ := by
  rw [← oracle_reverse_action g (ApplyList g.create_oracle.ops ψ)]
  exact applyList_reverse_applyList _ (oracle_gates_involutive hn g hgn) ψ

lemma diffuser_selfinv_aux {n : ℕ} (hn : 1 ≤ n) (g : GroverAlgorithm) (hgn : g.n = n)
    (ψ : State n) :
    ApplyList g.create_diffuser.ops (ApplyList g.create_diffuser.ops ψ) = ψ := by
  rw [← diffuser_reverse_action g (ApplyList g.create_diffuser.ops ψ)]
  exact applyList_reverse_applyList _ (diffuser_gates_involutive hn g hgn) ψ

/-! ## The little-endian reading of the target string -/

/-- Character of `t` at little-endian position `i`: position `0` is the
rightmost character. -/
def littleEndianBit (t : String) (i : ℕ) : Char :=
  t.data.getD (t.length - 1 - i) ' '

lemma enumFrom_filterMap {α β : Type} (d : α) (f : ℕ → α → Option β) :
    ∀ (l : List α) (k : ℕ),
      (l.enumFrom k).filterMap (fun p => f p.1 p.2) =
        (List.range l.length).filterMap (fun i => f (k + i) (l.getD i d))
  | [], _ => rfl
  | a :: t, k => by
    rw [List.enumFrom_cons, List.filterMap_cons, List.length_cons,
      List.range_succ_eq_map, List.filterMap_cons]
    have ih := enumFrom_filterMap d f t (k + 1)
    have hmap : (List.filterMap (fun i => f (k + i) ((a :: t).getD i d))
        (List.map Nat.succ (List.range t.length))) =
        List.filterMap (fun i => f (k + 1 + i) (t.getD i d)) (List.range t.length) := by
      rw [List.filterMap_map]
      refine List.filterMap_congr fun i _ => ?_
      have h1 : k + Nat.succ i = k + 1 + i := by omega
      simp [Function.comp, h1, List.getD_cons_succ]
    rw [hmap, ← ih]
    simp [List.getD_cons_zero]

lemma enum_filterMap {α β : Type} (d : α) (f : ℕ → α → Option β) (l : List α) :
    l.enum.filterMap (fun p => f p.1 p.2) =
      (List.range l.length).filterMap (fun i => f i (l.getD i d)) := by
  have h := enumFrom_filterMap d f l 0
  simpa using h

/-- The X-layer of the oracle, written positionally: an X on every line `i`
whose little-endian target bit is '0'. -/
lemma flipGates_eq_littleEndian (t : String) :
    flipGates t = (List.range t.length).filterMap fun i =>
      if littleEndianBit t i = '0' then some (BasicGate.x i) else none := by
  unfold flipGates
  rw [List.enum, enumFrom_filterMap ' ' (fun i c => if c = '0' then some (BasicGate.x i) else none)]
  rw [List.length_reverse]
  have hlen : t.data.length = t.length := rfl
  rw [hlen]
  refine List.filterMap_congr fun i hi => ?_
  have hi' : i < t.length := List.mem_range.mp hi
  have hrev : t.data.reverse.getD i ' ' = littleEndianBit t i := by
    have h1 : i < t.data.reverse.length := by
      rw [List.length_reverse]; exact hi'
    rw [List.getD_eq_getElem _ _ h1, List.getElem_reverse]
    rw [littleEndianBit, List.getD_eq_getElem _ _ (show t.length - 1 - i < t.data.length by
      have : t.data.length = t.length := rfl
      omega)]
    rfl
  rw [hrev, Nat.zero_add]

/-! ## Counting helpers for the assembled circuit -/

lemma count_flatten_replicate_pair {α : Type} [DecidableEq α] (a b : α) (hab : a ≠ b) (k : ℕ) :
    (List.replicate k [a, b]).flatten.count a = k ∧
      (List.replicate k [a, b]).flatten.count b = k := by
  induction k with
  | zero => simp
  | succ k ih =>
    rw [List.replicate_succ, List.flatten_cons]
    constructor
    · rw [List.count_append, ih.1]
      simp [List.count_cons, hab.symm]
      omega
    · rw [List.count_append, ih.2]
      simp [List.count_cons, hab]
      omega

lemma count_append_in_gate_map (ins : Instruction) (rng : List ℕ) (m : ℕ) :
    ((List.range m).map fun i => CircuitOp.gate (BasicGate.h i)).count
      (CircuitOp.append ins rng) = 0 := by
  refine List.count_eq_zero.mpr fun hmem => ?_
  rcases List.mem_map.mp hmem with ⟨i, _, hi⟩
  simp at hi

lemma count_append_in_measure_map (ins : Instruction) (rng : List ℕ) (m : ℕ) :
    ((List.range m).map fun i => CircuitOp.measure i i).count
      (CircuitOp.append ins rng) = 0 := by
  refine List.count_eq_zero.mpr fun hmem => ?_
  rcases List.mem_map.mp hmem with ⟨i, _, hi⟩
  simp at hi

lemma oracle_ne_diffuser (g : GroverAlgorithm) : g.create_oracle ≠ g.create_diffuser := by
  intro h
  have := congrArg Instruction.name h
  simp [GroverAlgorithm.create_oracle, GroverAlgorithm.create_diffuser] at this

/-! ## Claim C2 -/

/-- C2: for every `n ≥ 1` and target of length `n`, the oracle returned by
`create_oracle` is exactly: X gates on every line whose little-endian target
bit is '0', then H on line `n-1`, a multi-controlled X with controls `0..n-2`
and target `n-1`, then H on line `n-1`, then the same X gates again; packaged
as one composite operator named "Oracle (Z_f)" over `n` lines. -/
theorem oracle_gate_sequence (n : ℕ) (t : String) (hn : 1 ≤ n) (ht : t.length = n) :
    (GroverAlgorithm.create_oracle ⟨n, t⟩).ops =
      ((List.range n).filterMap fun i =>
        if littleEndianBit t i = '0' then some (BasicGate.x i) else none)
      ++ [BasicGate.h (n - 1), BasicGate.mcx (List.range (n - 1)) (n - 1),
          BasicGate.h (n - 1)]
      ++ ((List.range n).filterMap fun i =>
        if littleEndianBit t i = '0' then some (BasicGate.x i) else none) ∧
    (GroverAlgorithm.create_oracle ⟨n, t⟩).name = "Oracle (Z_f)" ∧
    (GroverAlgorithm.create_oracle ⟨n, t⟩).num_qubits = n := by
  refine ⟨?_, rfl, rfl⟩
  show flipGates t ++ _ ++ flipGates t = _
  rw [flipGates_eq_littleEndian, ht]

/-- Witness for C2 at `n = 3`, target "101". -/
theorem oracle_gate_sequence_witness :
    (GroverAlgorithm.create_oracle ⟨3, "101"⟩).ops =
      ((List.range 3).filterMap fun i =>
        if littleEndianBit "101" i = '0' then some (BasicGate.x i) else none)
      ++ [BasicGate.h 2, BasicGate.mcx (List.range 2) 2, BasicGate.h 2]
      ++ ((List.range 3).filterMap fun i =>
        if littleEndianBit "101" i = '0' then some (BasicGate.x i) else none) ∧
    (GroverAlgorithm.create_oracle ⟨3, "101"⟩).name = "Oracle (Z_f)" ∧
    (GroverAlgorithm.create_oracle ⟨3, "101"⟩).num_qubits = 3 :=
  oracle_gate_sequence 3 "101" (by norm_num) rfl

/-! ## Claim C3 -/

/-- C3: for every `n ≥ 1`, the diffuser returned by `create_diffuser` is
exactly: H on every line, X on every line, the H / MCX / H sandwich targeting
line `n-1` with controls on all other lines, X on every line, H on every line;
packaged as one composite operator named "Diffuser (D)" over `n` lines. -/
theorem diffuser_gate_sequence (n : ℕ) (t : String) (hn : 1 ≤ n) (ht : t.length = n) :
    (GroverAlgorithm.create_diffuser ⟨n, t⟩).ops =
      ((List.range n).map BasicGate.h) ++ ((List.range n).map BasicGate.x)
      ++ [BasicGate.h (n - 1), BasicGate.mcx (List.range (n - 1)) (n - 1),
          BasicGate.h (n - 1)]
      ++ ((List.range n).map BasicGate.x) ++ ((List.range n).map BasicGate.h) ∧
    (GroverAlgorithm.create_diffuser ⟨n, t⟩).name = "Diffuser (D)" ∧
    (GroverAlgorithm.create_diffuser ⟨n, t⟩).num_qubits = n :=
  ⟨rfl, rfl, rfl⟩

/-- Witness for C3 at `n = 3`, target "101". -/
theorem diffuser_gate_sequence_witness :
    (GroverAlgorithm.create_diffuser ⟨3, "101"⟩).ops =
      ((List.range 3).map BasicGate.h) ++ ((List.range 3).map BasicGate.x)
      ++ [BasicGate.h 2, BasicGate.mcx (List.range 2) 2, BasicGate.h 2]
      ++ ((List.range 3).map BasicGate.x) ++ ((List.range 3).map BasicGate.h) ∧
    (GroverAlgorithm.create_diffuser ⟨3, "101"⟩).name = "Diffuser (D)" ∧
    (GroverAlgorithm.create_diffuser ⟨3, "101"⟩).num_qubits = 3 :=
  diffuser_gate_sequence 3 "101" (by norm_num) rfl

/-! ## Claim C4 -/

/-- C4: for every `n ≥ 1`, valid target, and `k ≥ 0`, `build_circuit`
produces exactly: a Hadamard on every quantum line, then exactly `k`
oracle-then-diffuser pairs placed across all `n` lines, then a measurement of
every quantum line `i` into classical line `i`; with `k = 0` the description
contains initialization and measurement only. -/
theorem build_circuit_structure (n : ℕ) (t : String) (k : ℕ) (hn : 1 ≤ n)
    (ht : t.length = n) :
    (GroverAlgorithm.build_circuit ⟨n, t⟩ (k : ℤ)).num_qubits = n ∧
    (GroverAlgorithm.build_circuit ⟨n, t⟩ (k : ℤ)).num_clbits = n ∧
    (GroverAlgorithm.build_circuit ⟨n, t⟩ (k : ℤ)).ops =
      ((List.range n).map fun i => CircuitOp.gate (BasicGate.h i))
      ++ (List.replicate k
            [CircuitOp.append (GroverAlgorithm.create_oracle ⟨n, t⟩) (List.range n),
             CircuitOp.append (GroverAlgorithm.create_diffuser ⟨n, t⟩) (List.range n)]).flatten
      ++ ((List.range n).map fun i => CircuitOp.measure i i) ∧
    (GroverAlgorithm.build_circuit ⟨n, t⟩ (k : ℤ)).ops.count
      (CircuitOp.append (GroverAlgorithm.create_oracle ⟨n, t⟩) (List.range n)) = k ∧
    (GroverAlgorithm.build_circuit ⟨n, t⟩ (k : ℤ)).ops.count
      (CircuitOp.append (GroverAlgorithm.create_diffuser ⟨n, t⟩) (List.range n)) = k ∧
    (k = 0 → (GroverAlgorithm.build_circuit ⟨n, t⟩ (k : ℤ)).ops =
      ((List.range n).map fun i => CircuitOp.gate (BasicGate.h i))
      ++ ((List.range n).map fun i => CircuitOp.measure i i)) := by
  have hops : (GroverAlgorithm.build_circuit ⟨n, t⟩ (k : ℤ)).ops =
      ((List.range n).map fun i => CircuitOp.gate (BasicGate.h i))
      ++ (List.replicate k
            [CircuitOp.append (GroverAlgorithm.create_oracle ⟨n, t⟩) (List.range n),
             CircuitOp.append (GroverAlgorithm.create_diffuser ⟨n, t⟩) (List.range n)]).flatten
      ++ ((List.range n).map fun i => CircuitOp.measure i i) := by
    unfold GroverAlgorithm.build_circuit
    rw [Int.toNat_natCast]
  have hne : CircuitOp.append (GroverAlgorithm.create_oracle ⟨n, t⟩) (List.range n) ≠
      CircuitOp.append (GroverAlgorithm.create_diffuser ⟨n, t⟩) (List.range n) := by
    intro h
    injection h with h1 h2
    exact oracle_ne_diffuser _ h1
  have hcount := count_flatten_replicate_pair
    (CircuitOp.append (GroverAlgorithm.create_oracle ⟨n, t⟩) (List.range n))
    (CircuitOp.append (GroverAlgorithm.create_diffuser ⟨n, t⟩) (List.range n)) hne k
  refine ⟨rfl, rfl, hops, ?_, ?_, ?_⟩
  · rw [hops, List.count_append, List.count_append, count_append_in_gate_map,
      count_append_in_measure_map, hcount.1]
    omega
  · rw [hops, List.count_append, List.count_append, count_append_in_gate_map,
      count_append_in_measure_map, hcount.2]
    omega
  · intro hk
    subst hk
    rw [hops]
    simp

/-- Witness for C4 at `n = 2`, target "10", `k = 2`. -/
theorem build_circuit_structure_witness :
    (GroverAlgorithm.build_circuit ⟨2, "10"⟩ (2 : ℤ)).num_qubits = 2 ∧
    (GroverAlgorithm.build_circuit ⟨2, "10"⟩ (2 : ℤ)).num_clbits = 2 ∧
    (GroverAlgorithm.build_circuit ⟨2, "10"⟩ (2 : ℤ)).ops =
      ((List.range 2).map fun i => CircuitOp.gate (BasicGate.h i))
      ++ (List.replicate 2
            [CircuitOp.append (GroverAlgorithm.create_oracle ⟨2, "10"⟩) (List.range 2),
             CircuitOp.append (GroverAlgorithm.create_diffuser ⟨2, "10"⟩) (List.range 2)]).flatten
      ++ ((List.range 2).map fun i => CircuitOp.measure i i) ∧
    (GroverAlgorithm.build_circuit ⟨2, "10"⟩ (2 : ℤ)).ops.count
      (CircuitOp.append (GroverAlgorithm.create_oracle ⟨2, "10"⟩) (List.range 2)) = 2 ∧
    (GroverAlgorithm.build_circuit ⟨2, "10"⟩ (2 : ℤ)).ops.count
      (CircuitOp.append (GroverAlgorithm.create_diffuser ⟨2, "10"⟩) (List.range 2)) = 2 ∧
    ((2 : ℕ) = 0 → (GroverAlgorithm.build_circuit ⟨2, "10"⟩ (2 : ℤ)).ops =
      ((List.range 2).map fun i => CircuitOp.gate (BasicGate.h i))
      ++ ((List.range 2).map fun i => CircuitOp.measure i i)) :=
  build_circuit_structure 2 "10" 2 (by norm_num) rfl

/-! ## Claim C10 -/

/-- C10: for any negative iteration count `k < 0`, `build_circuit` raises no
error and returns the same circuit as `build_circuit 0` — initialization
Hadamards and measurements only, with no oracle or diffuser placements
(Python's `range(k)` is empty for `k < 0`). -/
theorem build_circuit_negative_iterations (n : ℕ) (t : String) (k : ℤ) (hn : 1 ≤ n)
    (ht : t.length = n) (hk : k < 0) :
    GroverAlgorithm.build_circuit ⟨n, t⟩ k = GroverAlgorithm.build_circuit ⟨n, t⟩ 0 ∧
    (GroverAlgorithm.build_circuit ⟨n, t⟩ k).ops =
      ((List.range n).map fun i => CircuitOp.gate (BasicGate.h i))
      ++ ((List.range n).map fun i => CircuitOp.measure i i) := by
  have h0 : k.toNat = 0 := Int.toNat_of_nonpos (le_of_lt hk)
  constructor
  · unfold GroverAlgorithm.build_circuit
    rw [h0]
    rfl
  · unfold GroverAlgorithm.build_circuit
    rw [h0]
    simp

/-- Witness for C10 at `n = 2`, target "10", `k = -3`. -/
theorem build_circuit_negative_iterations_witness :
    GroverAlgorithm.build_circuit ⟨2, "10"⟩ (-3) = GroverAlgorithm.build_circuit ⟨2, "10"⟩ 0 ∧
    (GroverAlgorithm.build_circuit ⟨2, "10"⟩ (-3)).ops =
      ((List.range 2).map fun i => CircuitOp.gate (BasicGate.h i))
      ++ ((List.range 2).map fun i => CircuitOp.measure i i) :=
  build_circuit_negative_iterations 2 "10" (-3) (by norm_num) rfl (by norm_num)

/-! ## Claim C9 -/

/-- C9: the builders are deterministic functions of their arguments: two
instances constructed from the same `(n, target)` produce, for equal iteration
counts, identical circuit descriptions, and identical oracle and diffuser
instructions — there is no hidden randomness and no retained iteration
state. -/
theorem build_deterministic (g g' : GroverAlgorithm) (k k' : ℤ)
    (h1 : g.n = g'.n) (h2 : g.target = g'.target) (h3 : k = k') :
    GroverAlgorithm.build_circuit g k = GroverAlgorithm.build_circuit g' k' ∧
    g.create_oracle = g'.create_oracle ∧
    g.create_diffuser = g'.create_diffuser := by
  cases g
  cases g'
  simp only at h1 h2
  subst h1
  subst h2
  subst h3
  exact ⟨rfl, rfl, rfl⟩

/-- Witness for C9: two separately constructed instances over `(2, "10")`. -/
theorem build_deterministic_witness :
    GroverAlgorithm.build_circuit ⟨2, "10"⟩ 1 = GroverAlgorithm.build_circuit ⟨2, "10"⟩ 1 ∧
    (GroverAlgorithm.create_oracle ⟨2, "10"⟩) = (GroverAlgorithm.create_oracle ⟨2, "10"⟩) ∧
    (GroverAlgorithm.create_diffuser ⟨2, "10"⟩) = (GroverAlgorithm.create_diffuser ⟨2, "10"⟩) :=
  build_deterministic ⟨2, "10"⟩ ⟨2, "10"⟩ 1 1 rfl rfl rfl

/-! ## Claim C6 (corrected) -/

/-- Counterexample to C6 as stated: the constructor accepts a target of the
right length containing characters outside {'0','1'} — no `ValidationError`
is raised for "ab". -/
theorem grover_init_accepts_invalid_chars :
    grover_init 2 "ab" = Except.ok { n := 2, target := "ab" } := rfl

/-- C6 (amended): construction fails with a `ValueError` exactly when the
target length differs from the register size; no character-set validation is
performed, so any string of the right length is accepted. -/
theorem grover_init_spec (n : ℕ) (t : String) :
    (t.length ≠ n → grover_init n t = Except.error PyError.valueError) ∧
    (t.length = n → grover_init n t = Except.ok { n := n, target := t }) := by
  constructor
  · intro h
    simp [grover_init, h]
  · intro h
    simp [grover_init, h]

/-- Witness for the amended C6: a length-mismatched target is rejected, a
length-matched one (even with invalid characters) is accepted. -/
theorem grover_init_spec_witness :
    grover_init 1 "01" = Except.error PyError.valueError ∧
    grover_init 2 "01" = Except.ok { n := 2, target := "01" } :=
  ⟨(grover_init_spec 1 "01").1 (by decide), (grover_init_spec 2 "01").2 rfl⟩

/-! ## Claim C8 -/

/-- C8: the oracle is self-inverse (applying it twice restores every basis
amplitude, including the sign of the target state), and the diffuser is
self-inverse (applying it twice returns any input state to itself). -/
theorem oracle_diffuser_self_inverse (n : ℕ) (t : String) (hn : 1 ≤ n)
    (ht : t.length = n) (ψ : State n) :
    ApplyList (GroverAlgorithm.create_oracle ⟨n, t⟩).ops
        (ApplyList (GroverAlgorithm.create_oracle ⟨n, t⟩).ops ψ) = ψ ∧
    ApplyList (GroverAlgorithm.create_diffuser ⟨n, t⟩).ops
        (ApplyList (GroverAlgorithm.create_diffuser ⟨n, t⟩).ops ψ) = ψ :=
  ⟨oracle_selfinv_aux hn _ rfl ψ, diffuser_selfinv_aux hn _ rfl ψ⟩

/-- Witness for C8 at `n = 2`, target "10", on a concrete state. -/
theorem oracle_diffuser_self_inverse_witness :
    ApplyList (GroverAlgorithm.create_oracle ⟨2, "10"⟩).ops
        (ApplyList (GroverAlgorithm.create_oracle ⟨2, "10"⟩).ops
          ((fun _ => (1 : ℝ)) : State 2)) = ((fun _ => (1 : ℝ)) : State 2) ∧
    ApplyList (GroverAlgorithm.create_diffuser ⟨2, "10"⟩).ops
        (ApplyList (GroverAlgorithm.create_diffuser ⟨2, "10"⟩).ops
          ((fun _ => (1 : ℝ)) : State 2)) = ((fun _ => (1 : ℝ)) : State 2) :=
  oracle_diffuser_self_inverse 2 "10" (by norm_num) rfl ((fun _ => (1 : ℝ)) : State 2)

/-! ## Single-line (n = 1) semantics -/

lemma fin1_setBit (v : Bool) (b : Fin 1 → Bool) : setBit 0 v b = fun _ => v := by
  funext j
  have hj : (j : ℕ) = 0 := by omega
  simp [setBit, hj]

lemma fin1_getBit (b : Fin 1 → Bool) : getBit b 0 = b 0 := by
  simp [getBit]

lemma fin1_flipBit (b : Fin 1 → Bool) : flipBit 0 b = fun _ => !(b 0) := by
  rw [flipBit, fin1_getBit, fin1_setBit]

lemma apply_x0_fin1 (ψ : State 1) :
    Apply (BasicGate.x 0) ψ = fun b => ψ (fun _ => !(b 0)) := by
  funext b
  show ψ (flipBit 0 b) = _
  rw [fin1_flipBit]

lemma apply_mcx0_fin1 (ψ : State 1) :
    Apply (BasicGate.mcx [] 0) ψ = fun b => ψ (fun _ => !(b 0)) := by
  funext b
  show ψ (if ([] : List ℕ).all (fun c => getBit b c) then flipBit 0 b else b) = _
  simp [List.all_nil, fin1_flipBit]

lemma apply_h0_fin1 (ψ : State 1) :
    Apply (BasicGate.h 0) ψ = fun b =>
      (ψ (fun _ => false) + (if b 0 then (-1 : ℝ) else 1) * ψ (fun _ => true)) /
        Real.sqrt 2 := by
  funext b
  show (ψ (setBit 0 false b) + (if getBit b 0 then (-1 : ℝ) else 1) * ψ (setBit 0 true b)) /
      Real.sqrt 2 = _
  rw [fin1_setBit, fin1_setBit, fin1_getBit]

lemma fin1_eta (b : Fin 1 → Bool) : (fun _ : Fin 1 => b 0) = b := by
  funext j
  rw [Subsingleton.elim j 0]

/-- The H / (zero-control MCX) / H sandwich on one line acts as a Z gate:
it flips the sign of the amplitude of `|1⟩` and fixes that of `|0⟩`. -/
lemma hxh_fin1 (ψ : State 1) :
    Apply (BasicGate.h 0) (Apply (BasicGate.mcx [] 0) (Apply (BasicGate.h 0) ψ)) =
      fun b => if b 0 then -(ψ b) else ψ b := by
  rw [apply_h0_fin1 ψ, apply_mcx0_fin1, apply_h0_fin1]
  funext b
  have h2 : Real.sqrt 2 ^ 2 = 2 := Real.sq_sqrt (by norm_num)
  have hne := sqrt_two_ne_zero
  simp only
  cases hb : b 0
  · rw [← fin1_eta b, hb]
    simp only [Bool.not_false, Bool.not_true, Bool.false_eq_true, if_false, if_true]
    field_simp
    ring_nf
  · rw [← fin1_eta b, hb]
    simp only [Bool.not_false, Bool.not_true, Bool.false_eq_true, if_false, if_true]
    field_simp
    ring_nf

/-! ## Claim C7 -/

/-- C7: for `n = 1` and target "0" or "1", `create_oracle` succeeds: the
multi-controlled X degenerates to a zero-control gate `mcx [] 0` (which acts
as a plain X), and the resulting oracle acts as a single-line phase flip of
the target basis state. -/
theorem oracle_single_line_phase_flip :
    ((GroverAlgorithm.create_oracle ⟨1, "0"⟩).ops =
      [BasicGate.x 0, BasicGate.h 0, BasicGate.mcx [] 0, BasicGate.h 0, BasicGate.x 0]) ∧
    ((GroverAlgorithm.create_oracle ⟨1, "1"⟩).ops =
      [BasicGate.h 0, BasicGate.mcx [] 0, BasicGate.h 0]) ∧
    (∀ ψ : State 1, ApplyList (GroverAlgorithm.create_oracle ⟨1, "0"⟩).ops ψ =
      fun b => if b 0 = false then -(ψ b) else ψ b) ∧
    (∀ ψ : State 1, ApplyList (GroverAlgorithm.create_oracle ⟨1, "1"⟩).ops ψ =
      fun b => if b 0 = true then -(ψ b) else ψ b) := by
  have hops0 : (GroverAlgorithm.create_oracle ⟨1, "0"⟩).ops =
      [BasicGate.x 0, BasicGate.h 0, BasicGate.mcx [] 0, BasicGate.h 0, BasicGate.x 0] := rfl
  have hops1 : (GroverAlgorithm.create_oracle ⟨1, "1"⟩).ops =
      [BasicGate.h 0, BasicGate.mcx [] 0, BasicGate.h 0] := rfl
  refine ⟨hops0, hops1, ?_, ?_⟩
  · intro ψ
    rw [hops0]
    show Apply (BasicGate.x 0) (Apply (BasicGate.h 0) (Apply (BasicGate.mcx [] 0)
        (Apply (BasicGate.h 0) (Apply (BasicGate.x 0) ψ)))) = _
    rw [hxh_fin1 (Apply (BasicGate.x 0) ψ), apply_x0_fin1 ψ, apply_x0_fin1]
    funext b
    simp only
    cases hb : b 0
    · rw [← fin1_eta b, hb]
      simp
    · rw [← fin1_eta b, hb]
      simp
  · intro ψ
    rw [hops1]
    show Apply (BasicGate.h 0) (Apply (BasicGate.mcx [] 0) (Apply (BasicGate.h 0) ψ)) = _
    rw [hxh_fin1 ψ]

/-! ## Rounding lemmas -/

lemma pythonRound_intCast (m : ℤ) : pythonRound (m : ℝ) = m := by
  unfold pythonRound
  rw [Int.floor_intCast]
  rw [if_neg (by norm_num)]
  exact round_intCast m

lemma pythonRound_nonneg {x : ℝ} (hx : 0 ≤ x) : 0 ≤ pythonRound x := by
  unfold pythonRound
  split
  · split
    · exact Int.floor_nonneg.mpr hx
    · have := Int.floor_nonneg.mpr hx
      omega
  · rw [round_eq]
    refine Int.floor_nonneg.mpr (by linarith)

lemma pythonRound_eq_of_between {m : ℤ} {x : ℝ} (h1 : (m : ℝ) - 1/2 < x)
    (h2 : x < (m : ℝ) + 1/2) : pythonRound x = m := by
  unfold pythonRound
  have hfrac : ¬(x - ⌊x⌋ = 1/2) := by
    intro h
    have hx : x = (⌊x⌋ : ℝ) + 1/2 := by linarith
    have hl : ((m : ℤ) : ℝ) - 1 < ((⌊x⌋ : ℤ) : ℝ) := by linarith
    have hr : ((⌊x⌋ : ℤ) : ℝ) < ((m : ℤ) : ℝ) := by linarith
    have hl' : m - 1 < ⌊x⌋ := by exact_mod_cast hl
    have hr' : ⌊x⌋ < m := by exact_mod_cast hr
    omega
  rw [if_neg hfrac, round_eq]
  refine Int.floor_eq_iff.mpr ⟨by linarith, by linarith⟩

/-! ## Evaluation lemmas for `calculate_optimal_iterations` -/

lemma calc_opt_eval (n s : ℤ)
    (h0 : ¬((s : ℝ) / (2:ℝ) ^ n < 0))
    (h1 : ¬(1 < Real.sqrt ((s : ℝ) / (2:ℝ) ^ n)))
    (h2 : ¬(Real.arcsin (Real.sqrt ((s : ℝ) / (2:ℝ) ^ n)) = 0)) :
    calculate_optimal_iterations n s =
      Except.ok (pythonRound (Real.pi /
        (4 * Real.arcsin (Real.sqrt ((s : ℝ) / (2:ℝ) ^ n))) - 1/2)) := by
  unfold calculate_optimal_iterations
  rw [if_neg h0, if_neg h1, if_neg h2]

lemma calc_opt_err_sqrt (n s : ℤ) (h : (s : ℝ) / (2:ℝ) ^ n < 0) :
    calculate_optimal_iterations n s = Except.error PyError.valueError := by
  unfold calculate_optimal_iterations
  rw [if_pos h]

lemma calc_opt_err_asin (n s : ℤ) (h0 : ¬((s : ℝ) / (2:ℝ) ^ n < 0))
    (h : 1 < Real.sqrt ((s : ℝ) / (2:ℝ) ^ n)) :
    calculate_optimal_iterations n s = Except.error PyError.valueError := by
  unfold calculate_optimal_iterations
  rw [if_neg h0, if_pos h]

lemma calc_opt_err_div (n s : ℤ) (h0 : ¬((s : ℝ) / (2:ℝ) ^ n < 0))
    (h1 : ¬(1 < Real.sqrt ((s : ℝ) / (2:ℝ) ^ n)))
    (h : Real.arcsin (Real.sqrt ((s : ℝ) / (2:ℝ) ^ n)) = 0) :
    calculate_optimal_iterations n s = Except.error PyError.zeroDivisionError := by
  unfold calculate_optimal_iterations
  rw [if_neg h0, if_neg h1, if_pos h]

/-! ## Bounds on `arcsin (1/4)` (used for the 4-qubit iteration count) -/

lemma sin_pi_div_sixteen_lt : Real.sin (Real.pi/16) < 1/4 := by
  have hpos : 0 < Real.pi/16 := by positivity
  have h1 : Real.sin (Real.pi/16) < Real.pi/16 := Real.sin_lt hpos
  have h2 : Real.pi/16 < 1/4 := by
    have := Real.pi_lt_four
    linarith
  linarith

lemma lt_sin_pi_div_twelve : 1/4 < Real.sin (Real.pi/12) := by
  have h12 : Real.pi/12 = Real.pi/3 - Real.pi/4 := by ring
  rw [h12, Real.sin_sub, Real.sin_pi_div_three, Real.cos_pi_div_four,
    Real.cos_pi_div_three, Real.sin_pi_div_four]
  have h2 : Real.sqrt 2 ^ 2 = 2 := Real.sq_sqrt (by norm_num)
  have h3 : Real.sqrt 3 ^ 2 = 3 := Real.sq_sqrt (by norm_num)
  have h2n : (0:ℝ) ≤ Real.sqrt 2 := Real.sqrt_nonneg 2
  have h3n : (0:ℝ) ≤ Real.sqrt 3 := Real.sqrt_nonneg 3
  have h2l : (1:ℝ) < Real.sqrt 2 := by nlinarith
  have h3l : (3:ℝ)/2 < Real.sqrt 3 := by nlinarith
  nlinarith [mul_pos (lt_trans one_pos h2l) (show (0:ℝ) < Real.sqrt 3 by nlinarith),
    sq_nonneg (Real.sqrt 2 * Real.sqrt 3 - Real.sqrt 2 - 1)]

lemma arcsin_quarter_lb : Real.pi/16 < Real.arcsin (1/4) := by
  have hb : Real.pi/16 = Real.arcsin (Real.sin (Real.pi/16)) := by
    rw [Real.arcsin_sin (by linarith [Real.pi_pos]) (by linarith [Real.pi_pos])]
  rw [hb]
  exact Real.strictMonoOn_arcsin
    ⟨Real.neg_one_le_sin _, Real.sin_le_one _⟩
    ⟨by norm_num, by norm_num⟩ sin_pi_div_sixteen_lt

lemma arcsin_quarter_ub : Real.arcsin (1/4) < Real.pi/12 := by
  have hb : Real.pi/12 = Real.arcsin (Real.sin (Real.pi/12)) := by
    rw [Real.arcsin_sin (by linarith [Real.pi_pos]) (by linarith [Real.pi_pos])]
  rw [hb]
  exact Real.strictMonoOn_arcsin
    ⟨by norm_num, by norm_num⟩
    ⟨Real.neg_one_le_sin _, Real.sin_le_one _⟩ lt_sin_pi_div_twelve

lemma calc_opt_two_one : calculate_optimal_iterations 2 1 = Except.ok 1 := by
  have hsqrt : Real.sqrt (((1:ℤ) : ℝ) / (2:ℝ) ^ (2:ℤ)) = 1/2 := by
    rw [show ((1:ℤ) : ℝ) / (2:ℝ) ^ (2:ℤ) = (1/2 : ℝ)^2 by norm_num]
    exact Real.sqrt_sq (by norm_num)
  have harc : Real.arcsin (1/2) = Real.pi/6 := by
    rw [← Real.sin_pi_div_six]
    exact Real.arcsin_sin (by linarith [Real.pi_pos]) (by linarith [Real.pi_pos])
  rw [calc_opt_eval 2 1 (by norm_num) (by rw [hsqrt]; norm_num)
    (by rw [hsqrt, harc]; positivity)]
  rw [hsqrt, harc]
  have hval : Real.pi / (4 * (Real.pi/6)) - 1/2 = 1 := by
    rw [show 4 * (Real.pi/6) = 2*Real.pi/3 by ring, div_div_eq_mul_div, mul_comm,
      mul_div_assoc, show (2:ℝ)*Real.pi = Real.pi*2 by ring, ← div_div,
      div_self Real.pi_ne_zero]
    norm_num
  rw [hval]
  have h1 := pythonRound_intCast 1
  norm_num at h1
  rw [h1]

lemma calc_opt_four_one : calculate_optimal_iterations 4 1 = Except.ok 3 := by
  have hsqrt : Real.sqrt (((1:ℤ) : ℝ) / (2:ℝ) ^ (4:ℤ)) = 1/4 := by
    rw [show ((1:ℤ) : ℝ) / (2:ℝ) ^ (4:ℤ) = (1/4 : ℝ)^2 by norm_num]
    exact Real.sqrt_sq (by norm_num)
  have hl := arcsin_quarter_lb
  have hu := arcsin_quarter_ub
  have hθpos : 0 < Real.arcsin (1/4) := lt_trans (by positivity) hl
  have hlo : (3:ℝ) < Real.pi / (4 * Real.arcsin (1/4)) := by
    have h1 : 4 * Real.arcsin (1/4) < Real.pi/3 := by linarith
    have h2 : Real.pi / (Real.pi/3) < Real.pi / (4 * Real.arcsin (1/4)) :=
      div_lt_div_of_pos_left Real.pi_pos (by positivity) h1
    have h3 : Real.pi / (Real.pi/3) = 3 := by
      rw [div_div_eq_mul_div, mul_comm, mul_div_assoc, div_self Real.pi_ne_zero]
      norm_num
    linarith
  have hhi : Real.pi / (4 * Real.arcsin (1/4)) < 4 := by
    have h1 : Real.pi/4 < 4 * Real.arcsin (1/4) := by linarith
    have h2 : Real.pi / (4 * Real.arcsin (1/4)) < Real.pi / (Real.pi/4) :=
      div_lt_div_of_pos_left Real.pi_pos (by positivity) h1
    have h3 : Real.pi / (Real.pi/4) = 4 := by
      rw [div_div_eq_mul_div, mul_comm, mul_div_assoc, div_self Real.pi_ne_zero]
      norm_num
    linarith
  rw [calc_opt_eval 4 1 (by norm_num) (by rw [hsqrt]; norm_num)
    (by rw [hsqrt]; exact ne_of_gt hθpos)]
  rw [hsqrt, pythonRound_eq_of_between (m := 3) (by push_cast; linarith)
    (by push_cast; linarith)]

lemma calc_opt_all_marked (n : ℤ) (hn : 0 ≤ n) :
    calculate_optimal_iterations n (2 ^ n.toNat) = Except.ok 0 := by
  have hq : (((2:ℤ) ^ n.toNat : ℤ) : ℝ) / (2:ℝ) ^ n = 1 := by
    have hpow : (((2:ℤ) ^ n.toNat : ℤ) : ℝ) = (2:ℝ) ^ n := by
      push_cast
      rw [← zpow_natCast, Int.toNat_of_nonneg hn]
    rw [hpow, div_self (ne_of_gt (zpow_pos (by norm_num) n))]
  have hsqrt : Real.sqrt ((((2:ℤ) ^ n.toNat : ℤ) : ℝ) / (2:ℝ) ^ n) = 1 := by
    rw [hq, Real.sqrt_one]
  rw [calc_opt_eval n _ (by rw [hq]; norm_num) (by rw [hsqrt]; norm_num)
    (by rw [hsqrt, Real.arcsin_one]; positivity)]
  rw [hsqrt, Real.arcsin_one]
  have hval : Real.pi / (4 * (Real.pi/2)) - 1/2 = 0 := by
    rw [show 4 * (Real.pi/2) = Real.pi * 2 by ring, ← div_div, div_self Real.pi_ne_zero]
    norm_num
  rw [hval]
  have h0 := pythonRound_intCast 0
  norm_num at h0
  rw [h0]

lemma calc_opt_formula (n s : ℤ) (hn : 1 ≤ n) (hs1 : 1 ≤ s) (hs2 : s ≤ 2 ^ n.toNat) :
    calculate_optimal_iterations n s =
      Except.ok (pythonRound (Real.pi /
        (4 * Real.arcsin (Real.sqrt ((s : ℝ) / (2:ℝ) ^ n))) - 1/2)) ∧
    0 ≤ pythonRound (Real.pi /
      (4 * Real.arcsin (Real.sqrt ((s : ℝ) / (2:ℝ) ^ n))) - 1/2) := by
  have hN : (0:ℝ) < (2:ℝ) ^ n := zpow_pos (by norm_num) n
  have hs1R : (1:ℝ) ≤ (s : ℝ) := by exact_mod_cast hs1
  have hs2R : (s : ℝ) ≤ (2:ℝ) ^ n := by
    have h1 : (s : ℝ) ≤ (((2:ℤ) ^ n.toNat : ℤ) : ℝ) := by exact_mod_cast hs2
    have h2 : (((2:ℤ) ^ n.toNat : ℤ) : ℝ) = (2:ℝ) ^ n := by
      push_cast
      rw [← zpow_natCast, Int.toNat_of_nonneg (by omega)]
    rwa [h2] at h1
  have hq0 : 0 < (s : ℝ) / (2:ℝ) ^ n := div_pos (by linarith) hN
  have hq1 : (s : ℝ) / (2:ℝ) ^ n ≤ 1 := (div_le_one hN).mpr hs2R
  have hsq0 : 0 < Real.sqrt ((s : ℝ) / (2:ℝ) ^ n) := Real.sqrt_pos.mpr hq0
  have hsq1 : Real.sqrt ((s : ℝ) / (2:ℝ) ^ n) ≤ 1 := Real.sqrt_le_one.mpr hq1
  have hθ0 : 0 < Real.arcsin (Real.sqrt ((s : ℝ) / (2:ℝ) ^ n)) := Real.arcsin_pos.mpr hsq0
  have hθ2 : Real.arcsin (Real.sqrt ((s : ℝ) / (2:ℝ) ^ n)) ≤ Real.pi/2 :=
    Real.arcsin_le_pi_div_two _
  constructor
  · exact calc_opt_eval n s (by linarith) (by linarith) (ne_of_gt hθ0)
  · refine pythonRound_nonneg ?_
    have h1 : Real.pi / (2*Real.pi) ≤
        Real.pi / (4 * Real.arcsin (Real.sqrt ((s : ℝ) / (2:ℝ) ^ n))) :=
      div_le_div_of_nonneg_left (le_of_lt Real.pi_pos) (by linarith) (by linarith)
    have h2 : Real.pi / (2*Real.pi) = 1/2 := by
      rw [mul_comm, ← div_div, div_self Real.pi_ne_zero]
    linarith

/-! ## Claim C1 -/

/-- C1: for every `n_qubits ≥ 1` and `1 ≤ n_solutions ≤ 2^n_qubits`,
`calculate_optimal_iterations` returns (without raising) the non-negative
integer `round(π / (4·arcsin(√(n_solutions / 2^n_qubits))) − 0.5)` (`round`
being Python's round-half-to-even); in particular it returns 1 at `(2, 1)`,
3 at `(4, 1)`, and 0 at `(n, 2^n)` for every `n ≥ 1`. -/
theorem optimal_iterations_spec (n s : ℤ) (hn : 1 ≤ n) (hs1 : 1 ≤ s)
    (hs2 : s ≤ 2 ^ n.toNat) :
    calculate_optimal_iterations n s =
      Except.ok (pythonRound (Real.pi /
        (4 * Real.arcsin (Real.sqrt ((s : ℝ) / (2:ℝ) ^ n))) - 1/2)) ∧
    0 ≤ pythonRound (Real.pi /
      (4 * Real.arcsin (Real.sqrt ((s : ℝ) / (2:ℝ) ^ n))) - 1/2) ∧
    (n = 2 → s = 1 → calculate_optimal_iterations n s = Except.ok 1) ∧
    (n = 4 → s = 1 → calculate_optimal_iterations n s = Except.ok 3) ∧
    (s = 2 ^ n.toNat → calculate_optimal_iterations n s = Except.ok 0) := by
  refine ⟨(calc_opt_formula n s hn hs1 hs2).1, (calc_opt_formula n s hn hs1 hs2).2,
    ?_, ?_, ?_⟩
  · rintro rfl rfl
    exact calc_opt_two_one
  · rintro rfl rfl
    exact calc_opt_four_one
  · rintro rfl
    exact calc_opt_all_marked n (by omega)

/-- Witness for C1 at `(n_qubits, n_solutions) = (2, 1)`. -/
theorem optimal_iterations_spec_witness :
    calculate_optimal_iterations 2 1 = Except.ok 1 :=
  (optimal_iterations_spec 2 1 (by norm_num) (by norm_num) (by decide)).2.2.1 rfl rfl

/-! ## Claim C5 (corrected) -/

/-- Counterexample to C5 as stated: `n_qubits = 0` (with the default
`n_solutions = 1`) falls under the claim's "register size zero or negative"
condition, yet the code raises nothing — there is no validation and no
`InvalidParameterError` anywhere in the function; the call returns 0. -/
theorem invalid_parameter_counterexample :
    calculate_optimal_iterations 0 1 = Except.ok 0 := by
  simpa using calc_opt_all_marked 0 (le_refl 0)

/-- C5 (amended): `calculate_optimal_iterations` performs no parameter
validation at all.  Out-of-range parameters surface as exceptions thrown
inside the math itself: a negative `n_solutions` makes `math.sqrt` raise
`ValueError`, `n_solutions > 2^n_qubits` makes `math.asin` raise
`ValueError`, `n_solutions = 0` makes the final division raise
`ZeroDivisionError`, and `n_qubits = 0` with `n_solutions = 1` raises
nothing and returns 0. -/
theorem calc_opt_error_behaviour (n s : ℤ) :
    (s < 0 → calculate_optimal_iterations n s = Except.error PyError.valueError) ∧
    ((2:ℝ) ^ n < (s : ℝ) →
      calculate_optimal_iterations n s = Except.error PyError.valueError) ∧
    (calculate_optimal_iterations n 0 = Except.error PyError.zeroDivisionError) ∧
    (calculate_optimal_iterations 0 1 = Except.ok 0) := by
  have hN : (0:ℝ) < (2:ℝ) ^ n := zpow_pos (by norm_num) n
  refine ⟨?_, ?_, ?_, ?_⟩
  · intro h
    exact calc_opt_err_sqrt n s (div_neg_of_neg_of_pos (by exact_mod_cast h) hN)
  · intro h
    have hq : 1 < (s : ℝ) / (2:ℝ) ^ n := (one_lt_div hN).mpr h
    refine calc_opt_err_asin n s (by linarith) ?_
    exact (Real.lt_sqrt (by norm_num)).mpr (by nlinarith)
  · have hq : ((0:ℤ) : ℝ) / (2:ℝ) ^ n = 0 := by norm_num
    exact calc_opt_err_div n 0 (by rw [hq]; norm_num) (by rw [hq, Real.sqrt_zero]; norm_num)
      (by rw [hq, Real.sqrt_zero, Real.arcsin_zero])
  · simpa using calc_opt_all_marked 0 (le_refl 0)

/-- Witness for the amended C5: concrete out-of-range parameters. -/
theorem calc_opt_error_behaviour_witness :
    calculate_optimal_iterations 1 3 = Except.error PyError.valueError ∧
    calculate_optimal_iterations 1 0 = Except.error PyError.zeroDivisionError :=
  ⟨(calc_opt_error_behaviour 1 3).2.1 (by norm_num),
   (calc_opt_error_behaviour 1 0).2.2.1⟩
